import Mathlib

/-!
Verification of the shot-labelling core of the tennis-annotation-tool
repository.  The Python sources under `backend/models/shot_labelling/` are
shallowly embedded: pure Python functions become Lean functions, Python
numbers become `Int`/`ℚ` (floats are modelled exactly by rationals), Python
`None`/missing dict keys become `Option`, raised exceptions become `Except`
errors, and each call to `random.choice`/`random.randint` is modelled by an
explicit `Fin`-valued argument standing for the drawn value.  Outputs of the
external CNN / LLM classifiers are modelled by explicit oracle parameters.
-/

namespace Tennis

/-! ## String utilities modelling Python's `in` and `str.split("_")` -/

/-- Models the question whether `p` is an initial segment of `s` at the
character level (helper for the Python substring test). -/
def leadsWith : List Char → List Char → Bool
  | [], _ => true
  | _ :: _, [] => false
  | p :: ps, c :: cs => p == c && leadsWith ps cs

/-- Character-level contiguous-substring test. -/
def charContains (pat : List Char) : List Char → Bool
  | [] => leadsWith pat []
  | c :: cs => leadsWith pat (c :: cs) || charContains pat cs

/-- Models the Python expression `pat in s` on strings. -/
def strIn (pat s : String) : Bool := charContains pat.data s.data

/-- Models Python `s.split("_")` at the character level: groups of characters
between underscores, empty groups included. -/
def splitUnders : List Char → List (List Char)
  | [] => [[]]
  | c :: cs =>
    match splitUnders cs with
    | [] => [[c]]
    | g :: gs => if c == '_' then [] :: g :: gs else (c :: g) :: gs

/-- Models Python `s.split("_")` on strings. -/
def pySplit (s : String) : List String := (splitUnders s.data).map String.mk

lemma splitUnders_ne_nil (cs : List Char) : splitUnders cs ≠ [] := by
  induction cs with
  | nil => simp [splitUnders]
  | cons c cs ih =>
    simp only [splitUnders]
    cases h : splitUnders cs with
    | nil => exact absurd h ih
    | cons g gs => by_cases hc : c = '_' <;> simp [hc]

lemma splitUnders_append (a b : List Char) :
    splitUnders (a ++ '_' :: b) = splitUnders a ++ splitUnders b := by
  induction a with
  | nil =>
    cases h : splitUnders b with
    | nil => exact absurd h (splitUnders_ne_nil b)
    | cons g gs => simp [splitUnders, h]
  | cons c a ih =>
    cases h : splitUnders a with
    | nil => exact absurd h (splitUnders_ne_nil a)
    | cons g gs =>
      simp only [List.cons_append, splitUnders, ih, h, List.append_eq]
      by_cases hc : c = '_'
      · subst hc
        simp
      · simp [hc]

lemma splitUnders_no_underscore (cs : List Char) (h : '_' ∉ cs) :
    splitUnders cs = [cs] := by
  induction cs with
  | nil => rfl
  | cons c cs ih =>
    have hc : c ≠ '_' := fun hh => h (hh ▸ List.mem_cons_self c cs)
    have hcs : '_' ∉ cs := fun hh => h (List.mem_cons_of_mem c hh)
    simp [splitUnders, ih hcs, hc]

lemma string_data_append (s t : String) : (s ++ t).data = s.data ++ t.data := rfl

lemma string_mk_data (s : String) : String.mk s.data = s := by
  cases s
  rfl

lemma pySplit_no_underscore (s : String) (h : '_' ∉ s.data) : pySplit s = [s] := by
  simp [pySplit, splitUnders_no_underscore s.data h, string_mk_data]

lemma pySplit_append (a b : String) :
    pySplit (a ++ "_" ++ b) = pySplit a ++ pySplit b := by
  have hdata : (a ++ "_" ++ b).data = a.data ++ '_' :: b.data := by
    simp [string_data_append]
  simp [pySplit, hdata, splitUnders_append]

/-! ## Geometry classifier: `ShotLabellingModel.get_court_position` -/

/-- A player or net position: models the Python dict with keys x, y
(missing keys default to 0 via `.get`, so both fields are always present). -/
structure Pos where
  x : ℚ
  y : ℚ
deriving DecidableEq

/-- The four court quadrants, in the order of the source literal list. -/
def quadrant_choices : List String := ["near_deuce", "near_ad", "far_deuce", "far_ad"]

/-- Embeds `ShotLabellingModel.get_court_position`.  A `none` argument models
a null/falsy position; `r` models the index drawn by `random.choice` on the
four-element quadrant list in the fallback branch. -/
def get_court_position (net player : Option Pos) (r : Fin 4) : String :=
  match net, player with
  | some np, some pp =>
    if pp.y > np.y then
      if pp.x < np.x then "near_deuce" else "near_ad"
    else
      if pp.x < np.x then "far_deuce" else "far_ad"
  | _, _ =>
    match r with
    | 0 => "near_deuce"
    | 1 => "near_ad"
    | 2 => "far_deuce"
    | 3 => "far_ad"

lemma get_court_position_mem (net player : Option Pos) (r : Fin 4) :
    get_court_position net player r ∈ quadrant_choices := by
  unfold get_court_position quadrant_choices
  match net, player with
  | some np, some pp =>
    by_cases h1 : pp.y > np.y <;> by_cases h2 : pp.x < np.x <;> simp [h1, h2]
  | none, none => match r with | 0 | 1 | 2 | 3 => simp
  | none, some p => match r with | 0 | 1 | 2 | 3 => simp
  | some p, none => match r with | 0 | 1 | 2 | 3 => simp

/-! ## Direction resolver: `POSSIBLE_SHOT_DIRECTIONS` and
`ShotLabellingModel.get_shot_direction` -/

/-- First-match association-list lookup, modelling Python dict indexing
(`d[k]`, `KeyError` when absent becomes `none`). -/
def assocFind {α : Type} (l : List (String × α)) (k : String) : Option α :=
  (l.find? (fun p => p.1 == k)).map (fun p => p.2)

/-- The module-level `POSSIBLE_SHOT_DIRECTIONS` table, transcribed entry by
entry from the source. -/
def POSSIBLE_SHOT_DIRECTIONS : List (String × List (String × List (String × String))) :=
  [("left",
    [("forehand",
      [("deuce_ad", "II"), ("deuce_deuce", "IO"), ("ad_ad", "CC"), ("ad_deuce", "DL")]),
     ("backhand",
      [("deuce_ad", "DL"), ("deuce_deuce", "CC"), ("ad_ad", "IO"), ("ad_deuce", "II")])]),
   ("right",
    [("forehand",
      [("deuce_ad", "DL"), ("deuce_deuce", "CC"), ("ad_ad", "IO"), ("ad_deuce", "II")]),
     ("backhand",
      [("deuce_ad", "II"), ("deuce_deuce", "IO"), ("ad_ad", "CC"), ("ad_deuce", "DL")])])]

/-- The two ways `get_shot_direction` can raise: the explicit
`Exception('Start and end positions cannot be on the same side')`, and a
`KeyError` from indexing the nested dicts. -/
inductive ShotDirError where
  | sameSide
  | keyError
deriving DecidableEq

instance exceptDecidableEq {ε α : Type} [DecidableEq ε] [DecidableEq α] :
    DecidableEq (Except ε α) := fun x y => by
  cases x with
  | ok a =>
    cases y with
    | ok b => exact decidable_of_iff (a = b) (by simp)
    | error f => exact Decidable.isFalse (by simp)
  | error e =>
    cases y with
    | ok b => exact Decidable.isFalse (by simp)
    | error f => exact decidable_of_iff (e = f) (by simp)

/-- Embeds `ShotLabellingModel.get_shot_direction`.  Substring tests use
`strIn`, the `raise` becomes `Except.error .sameSide`, and a failed dict
lookup at any of the three levels becomes `Except.error .keyError`. -/
def get_shot_direction (handedness side start stop : String) : Except ShotDirError String :=
  if (strIn "near" start && strIn "near" stop) || (strIn "far" start && strIn "far" stop) then
    .error .sameSide
  else
    let start_court_pos := if strIn "ad" start then "ad" else "deuce"
    let end_court_pos := if strIn "ad" stop then "ad" else "deuce"
    match assocFind POSSIBLE_SHOT_DIRECTIONS handedness with
    | none => .error .keyError
    | some bySide =>
      match assocFind bySide side with
      | none => .error .keyError
      | some byKey =>
        match assocFind byKey (start_court_pos ++ "_" ++ end_court_pos) with
        | none => .error .keyError
        | some d => .ok d

/-- The handedness-mirrored side, as the claim describes it: swaps
forehand and backhand. -/
def opposite_side (side : String) : String :=
  if side == "forehand" then "backhand" else "forehand"

/-! ## Roster and handedness lookup:
`ShotLabellingModel.get_player_handedness` -/

/-- A roster entry (`PlayerCategory`): `handedness := none` models a category
dict without a handedness key (`category.get` then defaults to unknown). -/
structure Category where
  id : Int
  handedness : Option String
deriving DecidableEq

/-- Decimal value of a digit string. -/
def natOfDigits (cs : List Char) : Nat :=
  cs.foldl (fun a c => a * 10 + (c.toNat - 48)) 0

/-- Models Python `int(...)` on a nonnegative decimal string (the only shapes
the pipeline produces); `none` models the `ValueError` on anything else. -/
def parseNat (s : String) : Option Nat :=
  if s.data ≠ [] ∧ s.data.all (fun c => c.isDigit) then some (natOfDigits s.data)
  else none

/-- Models Python `int(...)` including a leading minus sign. -/
def parseInt (s : String) : Option Int :=
  match s.data with
  | '-' :: rest =>
    if rest ≠ [] ∧ rest.all (fun c => c.isDigit) then some (-(natOfDigits rest : Int))
    else none
  | _ => (parseNat s).map (fun n => (n : Int))

/-- Models the numeric-id extraction at the top of `get_player_handedness`:
strip a leading p (Python `startswith`) and call `int(...)`; `none` models a
`ValueError`. -/
def parse_player_num (player_id : String) : Option Int :=
  if leadsWith "p".data player_id.data then parseInt (player_id.drop 1)
  else parseInt player_id

/-- Embeds `ShotLabellingModel.get_player_handedness`.  `none` models the
`ValueError` raised when the id does not parse (only reachable after the
empty-roster early return, as in the source). -/
def get_player_handedness (player_id : String) (categories : List Category) :
    Option String :=
  if categories.isEmpty then some "unknown"
  else
    match parse_player_num player_id with
    | none => none
    | some pid =>
      match categories.find? (fun c => c.id == pid) with
      | some c => some (c.handedness.getD "unknown")
      | none => some "unknown"

/-! ## Player identity resolution:
`ShotLabellingModel.get_player_from_hitting_moment` -/

/-- One entry of a hitting moment's `boundingBoxes` list: an optional raw
bbox (list of numbers) and an optional `category_id`. -/
structure BoxRec where
  bbox : Option (List ℚ)
  category_id : Option Int
deriving DecidableEq

/-- The key used by the `max(...)` call: `bbox[2] * bbox[3]` when a bbox with
at least four entries is present, otherwise 0. -/
def bbox_area_key (b : BoxRec) : ℚ :=
  match b.bbox with
  | some l => if 4 ≤ l.length then l.getD 2 0 * l.getD 3 0 else 0
  | none => 0

/-- Models Python `max(l, key=key)` on a list: the first element attaining
the maximal key (`max` keeps the current maximum on ties).  `none` models the
`ValueError` on an empty list. -/
def pyMax {α : Type} (key : α → ℚ) : List α → Option α
  | [] => none
  | x :: xs => some (xs.foldl (fun best y => if key best < key y then y else best) x)

lemma pyMax_foldl_spec {α : Type} (key : α → ℚ) (xs : List α) (x : α) :
    (xs.foldl (fun best y => if key best < key y then y else best) x) ∈ x :: xs ∧
    key x ≤ key (xs.foldl (fun best y => if key best < key y then y else best) x) ∧
    ∀ y ∈ xs, key y ≤ key (xs.foldl (fun best y => if key best < key y then y else best) x) := by
  induction xs generalizing x with
  | nil => exact ⟨List.mem_cons_self x [], le_refl _, fun y hy => absurd hy (List.not_mem_nil y)⟩
  | cons z zs ih =>
    simp only [List.foldl_cons]
    set x1 : α := if key x < key z then z else x with hx1
    obtain ⟨hmem, hge, hall⟩ := ih x1
    have hx1x : key x ≤ key x1 := by
      rw [hx1]; split
      · exact le_of_lt (by assumption)
      · exact le_refl _
    have hx1z : key z ≤ key x1 := by
      rw [hx1]; split
      · exact le_refl _
      · exact le_of_not_lt (by assumption)
    refine ⟨?_, hx1x.trans hge, ?_⟩
    · rcases List.mem_cons.mp hmem with h | h
      · rw [h, hx1]
        split
        · exact List.mem_cons_of_mem x (List.mem_cons_self z zs)
        · exact List.mem_cons_self x (z :: zs)
      · exact List.mem_cons_of_mem x (List.mem_cons_of_mem z h)
    · intro y hy
      rcases List.mem_cons.mp hy with h | h
      · exact h ▸ hx1z.trans hge
      · exact hall y h

lemma pyMax_spec {α : Type} (key : α → ℚ) (l : List α) (x : α)
    (h : pyMax key l = some x) : x ∈ l ∧ ∀ y ∈ l, key y ≤ key x := by
  cases l with
  | nil => simp [pyMax] at h
  | cons z zs =>
    simp only [pyMax, Option.some.injEq] at h
    obtain ⟨hmem, hge, hall⟩ := pyMax_foldl_spec key zs z
    subst h
    refine ⟨hmem, fun y hy => ?_⟩
    rcases List.mem_cons.mp hy with h | h
    · exact h ▸ hge
    · exact hall y h

/-- A hitting moment, as consumed by the sequencer: every field models the
presence/absence of the corresponding dict key. -/
structure HittingMoment where
  frameNumber : Option Int
  frame : Option Int
  playerId : Option Int
  boundingBoxes : Option (List BoxRec)
  playerPosition : Option Pos
deriving DecidableEq

/-- Embeds `ShotLabellingModel.get_player_from_hitting_moment`.  `r` models
the value drawn by `random.randint(1, 4)` (as an offset into 1..4). -/
def get_player_from_hitting_moment (m : HittingMoment) (r : Fin 4) : String :=
  match m.playerId with
  | some pid => "p" ++ toString pid
  | none =>
    match m.boundingBoxes with
    | some boxes =>
      if boxes.isEmpty then "p" ++ toString ((r : Nat) + 1)
      else
        match pyMax bbox_area_key boxes with
        | some largest =>
          match largest.category_id with
          | some cid => "p" ++ toString cid
          | none => "p" ++ toString ((r : Nat) + 1)
        | none => "p" ++ toString ((r : Nat) + 1)
    | none => "p" ++ toString ((r : Nat) + 1)

/-! ## Box normalization: `ShotLabellingModel._get_bboxes_from_data` -/

/-- A Python number as stored in a raw bbox: the source distinguishes ints
from floats with `isinstance(bbox[2], int)`, so the embedding keeps the tag.
Floats are modelled exactly as rationals. -/
inductive PyNum where
  | int (n : Int)
  | float (q : ℚ)
deriving DecidableEq

/-- Numeric value of a `PyNum`. -/
def PyNum.val : PyNum → ℚ
  | .int n => (n : ℚ)
  | .float q => q

/-- Models `isinstance(x, int)`. -/
def PyNum.isInt : PyNum → Bool
  | .int _ => true
  | .float _ => false

/-- Embeds the per-box branch of `_get_bboxes_from_data`: a 4-element bbox is
kept as-is when its third entry is an int greater than the first entry, and
otherwise converted from x/y/width/height form; anything else is skipped. -/
def normalize_bbox : List PyNum → Option (List ℚ)
  | [a, b, c, d] =>
    if c.isInt = true ∧ a.val < c.val then some [a.val, b.val, c.val, d.val]
    else some [a.val, b.val, a.val + c.val, b.val + d.val]
  | _ => none

/-- A raw frame-data item: `bbox := none` models an item without a bbox key. -/
structure RawBox where
  bbox : Option (List PyNum)
deriving DecidableEq

/-- Embeds `_get_bboxes_from_data`: items without a bbox key or with a bbox
that is not a 4-element list are skipped, the rest are normalized in order. -/
def get_bboxes_from_data (frame_data : List RawBox) : List (List ℚ) :=
  frame_data.filterMap (fun item => item.bbox.bind normalize_bbox)

/-- Modelled from the spec sentence the claim quotes (not from the source):
a raw 4-tuple is read as corners exactly when c ≥ a and d ≥ b, otherwise
converted from x/y/width/height form. -/
def claimed_normalize (a b c d : ℚ) : List ℚ :=
  if c ≥ a ∧ d ≥ b then [a, b, c, d] else [a, b, a + c, b + d]

/-! ## Frame-key resolution: `ShotLabellingModel.extract_player_images` -/

/-- Models Python `f"{n:0wd}"` for a nonnegative `n`: decimal digits,
zero-padded on the left to width `w`. -/
def zeroPad (w : Nat) (n : Nat) : String :=
  let s := toString n
  if s.length < w then String.mk (List.replicate (w - s.length) '0') ++ s else s

/-- The `possible_keys` list built in `extract_player_images`, in source
order: plain, 4-digit, 6-digit, frame-prefixed plain, frame-prefixed
4-digit. -/
def possible_keys (n : Nat) : List String :=
  [toString n, zeroPad 4 n, zeroPad 6 n, "frame_" ++ toString n, "frame_" ++ zeroPad 4 n]

/-- Models the key cleanup in the fallback scan:
`key.split("_")[-1] if "_" in key else key`. -/
def clean_key (key : String) : String :=
  if strIn "_" key then (pySplit key).getLastD key else key

/-- Embeds the frame-key resolution of `extract_player_images` over the list
of keys of the bbox map (in insertion order): first the `possible_keys`
variants in priority order, then the numeric-suffix scan (`parseNat` models
`int(...)` on the scanned key, a failed parse models the caught
`ValueError`); `none` models the no-matching-key failure path. -/
def resolve_frame_key (keys : List String) (n : Nat) : Option String :=
  match (possible_keys n).find? (fun k => keys.contains k) with
  | some k => some k
  | none => keys.find? (fun key => parseNat (clean_key key) == some n)

/-- Modelled from the spec sentence the claim quotes (not from the source):
the same resolution but with the frame-prefixed 6-digit variant also tried
in the first pass. -/
def possible_keys_claimed (n : Nat) : List String :=
  [toString n, zeroPad 4 n, zeroPad 6 n,
   "frame_" ++ toString n, "frame_" ++ zeroPad 4 n, "frame_" ++ zeroPad 6 n]

/-- Modelled from the spec sentence the claim quotes: resolution using the
six-variant candidate list. -/
def resolve_frame_key_claimed (keys : List String) (n : Nat) : Option String :=
  match (possible_keys_claimed n).find? (fun k => keys.contains k) with
  | some k => some k
  | none => keys.find? (fun key => parseNat (clean_key key) == some n)

/-! ## Player matcher: `ShotLabellingModel._find_hitting_players`.

Distances are carried as squared Euclidean distances in ℚ; the source
compares `(...)**0.5` values, and the square root is strictly monotone on
nonnegative numbers, so every comparison agrees.  The claim theorems restate
minimality through `Real.sqrt` to match the claims' wording. -/

/-- A normalized bounding box x1/y1/x2/y2 (the 4-element lists produced by
`_get_bboxes_from_data`). -/
structure Box where
  x1 : ℚ
  y1 : ℚ
  x2 : ℚ
  y2 : ℚ
deriving DecidableEq

/-- Box center, as computed in `_find_hitting_players`. -/
def center (b : Box) : ℚ × ℚ := ((b.x1 + b.x2) / 2, (b.y1 + b.y2) / 2)

/-- Squared Euclidean distance between two points. -/
def sqDist (c p : ℚ × ℚ) : ℚ := (c.1 - p.1) ^ 2 + (c.2 - p.2) ^ 2

/-- The first argmin loop of `_find_hitting_players`: iterate over the
distances with running index `i`; `none` models the initial state
(`min_distance = inf`, index -1), and the update uses the source's strict
comparison, so the first occurrence of the minimum wins. -/
def loopMin : List ℚ → Nat → Option (Nat × ℚ) → Option (Nat × ℚ)
  | [], _, best => best
  | d :: rest, i, best =>
    loopMin rest (i + 1)
      (match best with
       | none => some (i, d)
       | some (bi, bd) => if d < bd then some (i, d) else some (bi, bd))

/-- The partner loop of `_find_hitting_players`: same argmin loop but the
index `skip` (the hitting player) is passed over. -/
def loopMinSkip : List ℚ → Nat → Nat → Option (Nat × ℚ) → Option (Nat × ℚ)
  | [], _, _, best => best
  | d :: rest, i, skip, best =>
    loopMinSkip rest (i + 1) skip
      (if i = skip then best
       else
         match best with
         | none => some (i, d)
         | some (bi, bd) => if d < bd then some (i, d) else some (bi, bd))

/-- Embeds `ShotLabellingModel._find_hitting_players`: nearest box center to
the position (ties to the first index), then the remaining box whose center
x-coordinate is nearest to the primary's center x. -/
def find_hitting_players (boxes : List Box) (pos : ℚ × ℚ) : Int × Int :=
  match boxes with
  | [] => (-1, -1)
  | _ :: _ =>
    let centers := boxes.map center
    let dists := centers.map (fun c => sqDist c pos)
    match loopMin dists 0 none with
    | none => (-1, -1)
    | some (hpi, _) =>
      let px := (((centers.get? hpi).getD (0, 0))).1
      let xdists := centers.map (fun c => |c.1 - px|)
      match loopMinSkip xdists 0 hpi none with
      | none => ((hpi : Int), -1)
      | some (qi, _) => ((hpi : Int), (qi : Int))

lemma loopMin_invariant (l : List ℚ) :
    ∀ (i bi : Nat) (bd : ℚ),
      ∃ ri rd, loopMin l i (some (bi, bd)) = some (ri, rd) ∧
        rd ≤ bd ∧
        (∀ k (hk : k < l.length), rd ≤ l.get ⟨k, hk⟩) ∧
        ((ri = bi ∧ rd = bd) ∨
          ∃ k, ∃ hk : k < l.length, ri = i + k ∧ rd = l.get ⟨k, hk⟩ ∧ rd < bd ∧
            ∀ m (hm : m < k), rd < l.get ⟨m, Nat.lt_trans hm hk⟩) := by
  induction l with
  | nil =>
    intro i bi bd
    exact ⟨bi, bd, rfl, le_refl _, fun k hk => absurd hk (Nat.not_lt_zero k),
      Or.inl ⟨rfl, rfl⟩⟩
  | cons d rest ih =>
    intro i bi bd
    by_cases hd : d < bd
    · obtain ⟨ri, rd, heq, hle, hall, hcase⟩ := ih (i + 1) i d
      refine ⟨ri, rd, by simpa [loopMin, hd] using heq, hle.trans hd.le, ?_, ?_⟩
      · intro k hk
        match k with
        | 0 => exact hle
        | k + 1 => exact hall k (Nat.lt_of_succ_lt_succ hk)
      · rcases hcase with ⟨hri, hrd⟩ | ⟨k, hk, hri, hrd, hlt, hprev⟩
        · refine Or.inr ⟨0, Nat.succ_pos _, by omega, ?_, ?_, ?_⟩
          · simpa using hrd
          · exact hrd ▸ hd
          · intro m hm; exact absurd hm (Nat.not_lt_zero m)
        · refine Or.inr ⟨k + 1, Nat.succ_lt_succ hk, by omega, ?_, lt_trans hlt hd, ?_⟩
          · simpa using hrd
          · intro m hm
            match m with
            | 0 => exact hlt
            | m + 1 => exact hprev m (Nat.lt_of_succ_lt_succ hm)
    · obtain ⟨ri, rd, heq, hle, hall, hcase⟩ := ih (i + 1) bi bd
      refine ⟨ri, rd, by simpa [loopMin, hd] using heq, hle, ?_, ?_⟩
      · intro k hk
        match k with
        | 0 => exact hle.trans (le_of_not_lt hd)
        | k + 1 => exact hall k (Nat.lt_of_succ_lt_succ hk)
      · rcases hcase with ⟨hri, hrd⟩ | ⟨k, hk, hri, hrd, hlt, hprev⟩
        · exact Or.inl ⟨hri, hrd⟩
        · refine Or.inr ⟨k + 1, Nat.succ_lt_succ hk, by omega, ?_,
            hlt, ?_⟩
          · simpa using hrd
          · intro m hm
            match m with
            | 0 => exact lt_of_lt_of_le hlt (le_of_not_lt hd)
            | m + 1 => exact hprev m (Nat.lt_of_succ_lt_succ hm)

lemma loopMin_start (l : List ℚ) (h : l ≠ []) :
    ∃ ri rd, loopMin l 0 none = some (ri, rd) ∧
      ∃ hri : ri < l.length, rd = l.get ⟨ri, hri⟩ ∧
        (∀ k (hk : k < l.length), rd ≤ l.get ⟨k, hk⟩) ∧
        ∀ m (hm : m < ri), rd < l.get ⟨m, Nat.lt_trans hm hri⟩ := by
  match l with
  | [] => exact absurd rfl h
  | d :: rest =>
    obtain ⟨ri, rd, heq, hle, hall, hcase⟩ := loopMin_invariant rest 1 0 d
    have heq0 : loopMin (d :: rest) 0 none = some (ri, rd) := by
      simpa [loopMin] using heq
    rcases hcase with ⟨hri, hrd⟩ | ⟨k, hk, hri, hrd, hlt, hprev⟩
    · subst hri
      refine ⟨0, rd, heq0, Nat.succ_pos _, by simp [hrd], ?_, ?_⟩
      · intro kk hkk
        match kk with
        | 0 => exact hrd.le
        | kk + 1 => exact hall kk (Nat.lt_of_succ_lt_succ hkk)
      · intro m hm; exact absurd hm (Nat.not_lt_zero m)
    · have hri1 : ri = k + 1 := by omega
      subst hri1
      refine ⟨k + 1, rd, heq0, Nat.succ_lt_succ hk, by simpa using hrd, ?_, ?_⟩
      · intro kk hkk
        match kk with
        | 0 => exact le_of_lt hlt
        | kk + 1 => exact hall kk (Nat.lt_of_succ_lt_succ hkk)
      · intro m hm
        match m with
        | 0 => exact hlt
        | m + 1 => exact hprev m (Nat.lt_of_succ_lt_succ hm)

lemma loopMinSkip_invariant (l : List ℚ) :
    ∀ (i skip bi : Nat) (bd : ℚ),
      ∃ ri rd, loopMinSkip l i skip (some (bi, bd)) = some (ri, rd) ∧
        rd ≤ bd ∧
        (∀ k (hk : k < l.length), i + k ≠ skip → rd ≤ l.get ⟨k, hk⟩) ∧
        ((ri = bi ∧ rd = bd) ∨
          ∃ k, ∃ hk : k < l.length, ri = i + k ∧ i + k ≠ skip ∧ rd = l.get ⟨k, hk⟩) := by
  induction l with
  | nil =>
    intro i skip bi bd
    exact ⟨bi, bd, rfl, le_refl _, fun k hk _ => absurd hk (Nat.not_lt_zero k),
      Or.inl ⟨rfl, rfl⟩⟩
  | cons d rest ih =>
    intro i skip bi bd
    by_cases hskip : i = skip
    · obtain ⟨ri, rd, heq, hle, hall, hcase⟩ := ih (i + 1) skip bi bd
      refine ⟨ri, rd, by simpa [loopMinSkip, hskip] using heq, hle, ?_, ?_⟩
      · intro k hk hne
        match k with
        | 0 => exact absurd (by omega : i + 0 = skip) hne
        | k + 1 => exact hall k (Nat.lt_of_succ_lt_succ hk) (by omega)
      · rcases hcase with h | ⟨k, hk, hri, hne, hrd⟩
        · exact Or.inl h
        · exact Or.inr ⟨k + 1, Nat.succ_lt_succ hk, by omega, by omega, by simpa using hrd⟩
    · by_cases hd : d < bd
      · obtain ⟨ri, rd, heq, hle, hall, hcase⟩ := ih (i + 1) skip i d
        refine ⟨ri, rd, by simpa [loopMinSkip, hskip, hd] using heq, hle.trans hd.le, ?_, ?_⟩
        · intro k hk hne
          match k with
          | 0 => exact hle
          | k + 1 => exact hall k (Nat.lt_of_succ_lt_succ hk) (by omega)
        · rcases hcase with ⟨hri, hrd⟩ | ⟨k, hk, hri, hne, hrd⟩
          · exact Or.inr ⟨0, Nat.succ_pos _, by omega, by omega, by simpa [hrd]⟩
          · exact Or.inr ⟨k + 1, Nat.succ_lt_succ hk, by omega, by omega, by simpa using hrd⟩
      · obtain ⟨ri, rd, heq, hle, hall, hcase⟩ := ih (i + 1) skip bi bd
        refine ⟨ri, rd, by simpa [loopMinSkip, hskip, hd] using heq, hle, ?_, ?_⟩
        · intro k hk hne
          match k with
          | 0 => exact hle.trans (le_of_not_lt hd)
          | k + 1 => exact hall k (Nat.lt_of_succ_lt_succ hk) (by omega)
        · rcases hcase with h | ⟨k, hk, hri, hne, hrd⟩
          · exact Or.inl h
          · exact Or.inr ⟨k + 1, Nat.succ_lt_succ hk, by omega, by omega, by simpa using hrd⟩

lemma loopMinSkip_start (l : List ℚ) :
    ∀ (i skip : Nat),
      (loopMinSkip l i skip none = none ∧ ∀ k (hk : k < l.length), i + k = skip) ∨
      (∃ ri rd, loopMinSkip l i skip none = some (ri, rd) ∧
        (∀ k (hk : k < l.length), i + k ≠ skip → rd ≤ l.get ⟨k, hk⟩) ∧
        ∃ k, ∃ hk : k < l.length, ri = i + k ∧ i + k ≠ skip ∧ rd = l.get ⟨k, hk⟩) := by
  induction l with
  | nil =>
    intro i skip
    exact Or.inl ⟨rfl, fun k hk => absurd hk (Nat.not_lt_zero k)⟩
  | cons d rest ih =>
    intro i skip
    by_cases hskip : i = skip
    · rcases ih (i + 1) skip with ⟨hnone, hall⟩ | ⟨ri, rd, heq, hall, k, hk, hri, hne, hrd⟩
      · refine Or.inl ⟨by simpa [loopMinSkip, hskip] using hnone, ?_⟩
        intro k hk
        match k with
        | 0 => omega
        | k + 1 =>
          have := hall k (Nat.lt_of_succ_lt_succ hk)
          omega
      · refine Or.inr ⟨ri, rd, by simpa [loopMinSkip, hskip] using heq, ?_, ?_⟩
        · intro k hk hne2
          match k with
          | 0 => exact absurd (by omega : i + 0 = skip) hne2
          | k + 1 => exact hall k (Nat.lt_of_succ_lt_succ hk) (by omega)
        · exact ⟨k + 1, Nat.succ_lt_succ hk, by omega, by omega, by simpa using hrd⟩
    · obtain ⟨ri, rd, heq, hle, hall, hcase⟩ := loopMinSkip_invariant rest (i + 1) skip i d
      refine Or.inr ⟨ri, rd, by simpa [loopMinSkip, hskip] using heq, ?_, ?_⟩
      · intro k hk hne
        match k with
        | 0 => exact hle
        | k + 1 => exact hall k (Nat.lt_of_succ_lt_succ hk) (by omega)
      · rcases hcase with ⟨hri, hrd⟩ | ⟨k, hk, hri, hne, hrd⟩
        · exact ⟨0, Nat.succ_pos _, by omega, by omega, by simpa [hrd]⟩
        · exact ⟨k + 1, Nat.succ_lt_succ hk, by omega, by omega, by simpa using hrd⟩

/-! ## Rally sequencer: `CNNModel.generate_shot_labels`.

External effects (loading images, running the trained CNNs, the file
system) are modelled by an explicit classifier oracle: each field gives, per
moment index, the string the corresponding `predict_*` call would produce
from its model/default chain, and `fails` marks moments whose processing
raises an exception (caught by the per-moment `try`/`except`). -/

/-- The f-string 'label = f"cp_side_st_dir_formation_outcome"' used by
the sequencers (the gemini non-serve label fixes `formation` to non-serve). -/
def make_label (cp side st dir formation outcome : String) : String :=
  cp ++ "_" ++ side ++ "_" ++ st ++ "_" ++ dir ++ "_" ++ formation ++ "_" ++ outcome

/-- Embeds `CNNModel.correct_direction_by_strategy` branch for branch. -/
def correct_direction_by_strategy (predicted court_position side handedness : String) :
    String :=
  let court_side := if strIn "_" court_position then (pySplit court_position).getD 1 "" else "deuce"
  if handedness == "right" then
    if court_side == "deuce" then
      if side == "forehand" then predicted
      else if side == "backhand" then (if predicted == "dl" then "ii" else "io")
      else predicted
    else if court_side == "ad" then
      if side == "forehand" then (if predicted == "dl" then "ii" else "io")
      else if side == "backhand" then predicted
      else predicted
    else predicted
  else if handedness == "left" then
    if court_side == "deuce" then
      if side == "forehand" then (if predicted == "dl" then "ii" else "io")
      else if side == "backhand" then predicted
      else predicted
    else if court_side == "ad" then
      if side == "forehand" then predicted
      else if side == "backhand" then (if predicted == "dl" then "ii" else "io")
      else predicted
    else predicted
  else predicted

/-- Embeds `CNNModel.predict_side`: forced to forehand on a serve,
otherwise the model/default chain result (`model_out`). -/
def predict_side (model_out : String) (is_serve : Bool) : String :=
  if is_serve then "forehand" else model_out

/-- Embeds `CNNModel.predict_shot_type`: forced on serve and on return,
otherwise the model/default chain result. -/
def predict_shot_type (model_out : String) (is_serve is_return : Bool) : String :=
  if is_serve then "serve" else if is_return then "return" else model_out

/-- Embeds `CNNModel.predict_formation`: non-serve shots are fixed to
non-serve, serves use the model/default chain result. -/
def predict_formation (model_out : String) (is_serve : Bool) : String :=
  if is_serve = false then "non-serve" else model_out

/-- Embeds `CNNModel.predict_outcome`: a non-last shot is always in,
the last shot uses the model/default chain result. -/
def predict_outcome (model_out : String) (is_last_shot : Bool) : String :=
  if is_last_shot = false then "in" else model_out

/-- Embeds `CNNModel.predict_direction`: serves use the serve-direction
model/default chain; other shots remap the coarse model prediction through
`correct_direction_by_strategy` when court position, side and handedness are
all truthy (non-empty). -/
def predict_direction (serve_out raw_out : String) (is_serve : Bool)
    (court_position side handedness : String) : String :=
  if is_serve then serve_out
  else if court_position ≠ "" ∧ side ≠ "" ∧ handedness ≠ "" then
    correct_direction_by_strategy raw_out court_position side handedness
  else raw_out

/-- Per-moment outputs of the external classifiers and random draws, indexed
by the moment's position in the rally. -/
structure Oracle where
  side : Nat → String
  shotType : Nat → String
  formation : Nat → String
  serveDir : Nat → String
  rawDir : Nat → String
  outcome : Nat → String
  fails : Nat → Bool
  playerRand : Nat → Fin 4
  courtRand : Nat → Fin 4

/-- One generated shot event, with the fields the claims inspect. -/
structure Event where
  player : String
  frame : Int
  label : String
  outcome : String
  handedness : String
deriving DecidableEq

/-- Embeds one iteration of the per-moment loop of
`CNNModel.generate_shot_labels`; `none` models `continue` (missing frame
number, or any caught exception, which `o.fails i` marks). -/
def cnn_process_moment (categories : List Category) (net : Option Pos) (n : Nat)
    (o : Oracle) (i : Nat) (m : HittingMoment) : Option Event :=
  match (match m.frameNumber with | some k => some k | none => m.frame) with
  | none => none
  | some frame_number =>
    if o.fails i then none
    else
      let is_serve : Bool := i == 0
      let is_return : Bool := i == 1
      let is_last_shot : Bool := i == n - 1
      let player_id := get_player_from_hitting_moment m (o.playerRand i)
      match get_player_handedness player_id categories with
      | none => none
      | some handedness =>
        let court_position := get_court_position net m.playerPosition (o.courtRand i)
        let side := predict_side (o.side i) is_serve
        let shot_type := predict_shot_type (o.shotType i) is_serve is_return
        let formation := predict_formation (o.formation i) is_serve
        let direction :=
          predict_direction (o.serveDir i) (o.rawDir i) is_serve court_position side handedness
        let outcome := predict_outcome (o.outcome i) is_last_shot
        some
          { player := player_id
            frame := frame_number
            label := make_label court_position side shot_type direction formation outcome
            outcome := outcome
            handedness := handedness }

/-- Embeds the event-collecting loop of `CNNModel.generate_shot_labels`:
`enumerate` over the (already frame-sorted) hitting moments, appending one
event per moment that is not skipped. -/
def cnn_generate_shot_labels (categories : List Category) (net : Option Pos)
    (o : Oracle) (moments : List HittingMoment) : List Event :=
  (moments.enum).filterMap
    (fun p => cnn_process_moment categories net moments.length o p.1 p.2)

/-! ## The direction step of `GeminiModel.analyze_shot_sequence`
(non-last shot, frames available).

`llm` models the parsed JSON from the remote model: `some (side, shotType)`
for a successful parse, `none` for the `json.JSONDecodeError` fallback.  In
both branches the source derives the direction through `get_shot_direction`;
that call sits inside a `try` whose only handler is for `JSONDecodeError`,
so its exception propagates out (modelled by `Except.error`). -/
def analyze_shot_sequence_nonlast (net : Option Pos)
    (player_position next_player_position : Option Pos) (r1 r2 : Fin 4)
    (handedness : String) (is_return : Bool) (llm : Option (String × String)) :
    Except ShotDirError (String × String) :=
  let court_position := get_court_position net player_position r1
  let side := match llm with | some p => p.1 | none => "forehand"
  let shot_type :=
    match llm with
    | some p => p.2
    | none => if is_return then "return" else "swing"
  let next_court_position := get_court_position net next_player_position r2
  match get_shot_direction handedness side court_position next_court_position with
  | .error e => .error e
  | .ok direction =>
    .ok (make_label court_position side shot_type direction "non-serve" "in", "in")

/-! ## Concrete inputs used by witnesses and counterexamples -/

/-- A constant classifier oracle with vocabulary values and no failures. -/
def demo_oracle : Oracle :=
  { side := fun _ => "backhand"
    shotType := fun _ => "swing"
    formation := fun _ => "conventional"
    serveDir := fun _ => "t"
    rawDir := fun _ => "cc"
    outcome := fun _ => "err"
    fails := fun _ => false
    playerRand := fun _ => 0
    courtRand := fun _ => 0 }

/-- The same oracle but with every moment's processing raising an
exception. -/
def demo_oracle_fail : Oracle := { demo_oracle with fails := fun _ => true }

/-- A hitting moment with no frame number at all (skipped by the loop). -/
def demo_moment_noframe : HittingMoment := ⟨none, none, some 1, none, some ⟨1, 2⟩⟩

/-- A well-formed hitting moment at frame 5. -/
def demo_moment5 : HittingMoment := ⟨some 5, none, some 2, none, some ⟨-1, -2⟩⟩

/-- A moment with no playerId, one bounding box without a category id, and a
player position: the player-matcher inputs are present, yet identity falls
to the random draw. -/
def demo_matcher_moment : HittingMoment :=
  ⟨some 1, none, none, some [⟨some [0, 0, 10, 10], none⟩], some ⟨5, 5⟩⟩

/-- A moment with an explicit playerId. -/
def demo_pid_moment : HittingMoment := ⟨none, none, some 7, none, none⟩

/-! ## Claim theorems -/

/-- C1 counterexample: the labels assembled by the sequencers join six
values with an underscore, but the court-position value (here produced by
`get_court_position` itself) contains an underscore, so splitting the label
on an underscore yields 7 tokens, not 6, and the first token is "near"
rather than the court position. -/
theorem label_roundtrip_counterexample :
    get_court_position (some ⟨2, 2⟩) (some ⟨1, 3⟩) 0 = "near_deuce" ∧
    pySplit (make_label "near_deuce" "forehand" "serve" "t" "conventional" "in") =
      ["near", "deuce", "forehand", "serve", "t", "conventional", "in"] ∧
    (pySplit (make_label "near_deuce" "forehand" "serve" "t" "conventional" "in")).length ≠ 6 ∧
    ("near" : String) ≠ "near_deuce" := by
  refine ⟨by decide, by decide, by decide, by decide⟩

/-- C1 amended: for every label built from a quadrant court position and
five underscore-free component values, splitting on an underscore yields
exactly 7 tokens: the two halves of the court position (whose underscore
join recovers it) followed by side, shot type, direction, formation and
outcome. -/
theorem label_roundtrip_amended (cp s t d f o : String)
    (hcp : cp ∈ quadrant_choices)
    (hs : '_' ∉ s.data) (ht : '_' ∉ t.data) (hd : '_' ∉ d.data)
    (hf : '_' ∉ f.data) (ho : '_' ∉ o.data) :
    pySplit (make_label cp s t d f o) = pySplit cp ++ [s, t, d, f, o] ∧
    (pySplit (make_label cp s t d f o)).length = 7 ∧
    ∃ q1 q2, pySplit cp = [q1, q2] ∧ q1 ++ "_" ++ q2 = cp := by
  have key : pySplit (make_label cp s t d f o) = pySplit cp ++ [s, t, d, f, o] := by
    unfold make_label
    simp [pySplit_append, pySplit_no_underscore s hs, pySplit_no_underscore t ht,
      pySplit_no_underscore d hd, pySplit_no_underscore f hf, pySplit_no_underscore o ho]
  have hsplit : ∃ q1 q2, pySplit cp = [q1, q2] ∧ q1 ++ "_" ++ q2 = cp := by
    simp only [quadrant_choices, List.mem_cons, List.not_mem_nil, or_false] at hcp
    rcases hcp with rfl | rfl | rfl | rfl
    · exact ⟨"near", "deuce", by decide, by decide⟩
    · exact ⟨"near", "ad", by decide, by decide⟩
    · exact ⟨"far", "deuce", by decide, by decide⟩
    · exact ⟨"far", "ad", by decide, by decide⟩
  obtain ⟨q1, q2, hq, hj⟩ := hsplit
  refine ⟨key, ?_, q1, q2, hq, hj⟩
  rw [key, hq]
  simp

/-- C1 amended witness at a concrete produced label. -/
theorem label_roundtrip_amended_witness :
    pySplit (make_label "far_ad" "backhand" "return" "cc" "non-serve" "in") =
      pySplit "far_ad" ++ ["backhand", "return", "cc", "non-serve", "in"] ∧
    (pySplit (make_label "far_ad" "backhand" "return" "cc" "non-serve" "in")).length = 7 ∧
    ∃ q1 q2, pySplit "far_ad" = [q1, q2] ∧ q1 ++ "_" ++ q2 = "far_ad" :=
  label_roundtrip_amended "far_ad" "backhand" "return" "cc" "non-serve" "in"
    (by decide) (by decide) (by decide) (by decide) (by decide) (by decide)

lemma label_token3 (cp s t d f oc : String)
    (hcp : cp ∈ quadrant_choices) (hs : '_' ∉ s.data) (ht : '_' ∉ t.data) :
    (pySplit (make_label cp s t d f oc)).get? 3 = some t := by
  unfold make_label
  simp only [pySplit_append, pySplit_no_underscore s hs, pySplit_no_underscore t ht]
  simp only [quadrant_choices, List.mem_cons, List.not_mem_nil, or_false] at hcp
  have hq : ∃ q1 q2, pySplit cp = [q1, q2] := by
    rcases hcp with rfl | rfl | rfl | rfl
    · exact ⟨"near", "deuce", by decide⟩
    · exact ⟨"near", "ad", by decide⟩
    · exact ⟨"far", "deuce", by decide⟩
    · exact ⟨"far", "ad", by decide⟩
  obtain ⟨q1, q2, hq⟩ := hq
  rw [hq]
  rfl

/-- C2 counterexample: in a two-moment rally whose first hitting moment has
no frame number, the CNN sequencer skips moment 0 but keeps role flags tied
to the moment index, so the first (and only) produced event carries shot
type "return", not "serve". -/
theorem sequencer_first_event_counterexample :
    (cnn_generate_shot_labels [] (some ⟨0, 0⟩) demo_oracle
        [demo_moment_noframe, demo_moment5]).map (fun e => e.label) =
      ["far_deuce_backhand_return_cc_non-serve_err"] ∧
    (pySplit "far_deuce_backhand_return_cc_non-serve_err").get? 3 = some "return" ∧
    ("return" : String) ≠ "serve" := by
  refine ⟨by decide, by decide, by decide⟩

/-- C2 amended: the CNN sequencer yields at most n events; the event
produced from moment index 0 (when that moment is not skipped) is the head
of the output and carries shot type "serve"; the event from index 1 carries
"return"; events from non-last indices have outcome "in"; and the event
from the last index carries the classifier's outcome, which lies in
{win, err} whenever the outcome classifier's vocabulary does.  (When an
early moment is skipped the first produced event can still be a non-serve,
as the counterexample shows.) -/
theorem sequencer_invariants_amended (categories : List Category) (net : Option Pos)
    (o : Oracle) (moments : List HittingMoment)
    (hout : ∀ i, o.outcome i = "win" ∨ o.outcome i = "err")
    (hside : ∀ i, '_' ∉ (o.side i).data) :
    (cnn_generate_shot_labels categories net o moments).length ≤ moments.length ∧
    (∀ m0 e, moments.head? = some m0 →
       cnn_process_moment categories net moments.length o 0 m0 = some e →
       (cnn_generate_shot_labels categories net o moments).head? = some e) ∧
    (∀ i m e, moments.get? i = some m →
       cnn_process_moment categories net moments.length o i m = some e →
       (i = 0 → (pySplit e.label).get? 3 = some "serve") ∧
       (i = 1 → (pySplit e.label).get? 3 = some "return") ∧
       (i + 1 < moments.length → e.outcome = "in") ∧
       (i + 1 = moments.length → e.outcome = "win" ∨ e.outcome = "err")) := by
  refine ⟨?_, ?_, ?_⟩
  · calc (cnn_generate_shot_labels categories net o moments).length
        ≤ moments.enum.length := List.length_filterMap_le _ _
      _ = moments.length := List.enum_length
  · intro m0 e h1 h2
    cases moments with
    | nil => cases h1
    | cons a rest =>
      simp only [List.head?_cons, Option.some.injEq] at h1
      subst h1
      simp only [cnn_generate_shot_labels, List.enum_cons, List.filterMap_cons]
      rw [h2]
      simp
  · intro i m e hm hproc
    cases hfm : (match m.frameNumber with | some k => some k | none => m.frame) with
    | none => simp [cnn_process_moment, hfm] at hproc
    | some fn =>
      cases hfail : o.fails i with
      | true => simp [cnn_process_moment, hfm, hfail] at hproc
      | false =>
        cases hh : get_player_handedness
            (get_player_from_hitting_moment m (o.playerRand i)) categories with
        | none => simp [cnn_process_moment, hfm, hfail, hh] at hproc
        | some handedness =>
          simp only [cnn_process_moment, hfm, hfail, hh, Bool.false_eq_true,
            if_false, Option.some.injEq] at hproc
          subst hproc
          refine ⟨?_, ?_, ?_, ?_⟩
          · rintro rfl
            have h1 : predict_side (o.side 0) (0 == 0) = "forehand" := rfl
            have h2 : predict_shot_type (o.shotType 0) (0 == 0) (0 == 1) = "serve" := rfl
            simp only [h1, h2]
            exact label_token3 _ _ _ _ _ _ (get_court_position_mem _ _ _)
              (by decide) (by decide)
          · rintro rfl
            have h1 : predict_side (o.side 1) (1 == 0) = o.side 1 := rfl
            have h2 : predict_shot_type (o.shotType 1) (1 == 0) (1 == 1) = "return" := rfl
            simp only [h1, h2]
            exact label_token3 _ _ _ _ _ _ (get_court_position_mem _ _ _)
              (hside 1) (by decide)
          · intro hlt
            have h1 : (i == moments.length - 1) = false :=
              beq_eq_false_iff_ne.mpr (by omega)
            simp [predict_outcome, h1]
          · intro hlast
            have hi : i < moments.length := by
              have := List.get?_eq_some.mp hm
              exact this.1
            have h1 : (i == moments.length - 1) = true := beq_iff_eq.mpr (by omega)
            simp only [predict_outcome, h1]
            simpa using hout i

/-- C2 amended witness at a concrete two-moment rally: length bound and the
serve token of the event produced from moment index 0. -/
theorem sequencer_invariants_amended_witness :
    (cnn_generate_shot_labels [] (some ⟨0, 0⟩) demo_oracle
        [demo_moment5, demo_moment5]).length ≤ 2 ∧
    (pySplit "far_deuce_forehand_serve_t_conventional_in").get? 3 = some "serve" := by
  have h := sequencer_invariants_amended [] (some ⟨0, 0⟩) demo_oracle
    [demo_moment5, demo_moment5] (fun i => Or.inr rfl)
    (fun i => show '_' ∉ ("backhand" : String).data by decide)
  refine ⟨by simpa using h.1, ?_⟩
  exact (h.2.2 0 demo_moment5
    ⟨"p2", 5, "far_deuce_forehand_serve_t_conventional_in", "in", "unknown"⟩
    (by decide) (by decide)).1 rfl

/-- C3: on non-null net and player positions the geometry classifier
returns the quadrant determined by the stated sign tests, always lands in
the four-element quadrant vocabulary, and ignores the random draw. -/
theorem get_court_position_spec (net p : Pos) (r : Fin 4) :
    (net.y < p.y → p.x < net.x →
       get_court_position (some net) (some p) r = "near_deuce") ∧
    (net.y < p.y → net.x ≤ p.x →
       get_court_position (some net) (some p) r = "near_ad") ∧
    (p.y ≤ net.y → p.x < net.x →
       get_court_position (some net) (some p) r = "far_deuce") ∧
    (p.y ≤ net.y → net.x ≤ p.x →
       get_court_position (some net) (some p) r = "far_ad") ∧
    get_court_position (some net) (some p) r ∈ quadrant_choices ∧
    ∀ r2 : Fin 4,
      get_court_position (some net) (some p) r = get_court_position (some net) (some p) r2 := by
  refine ⟨?_, ?_, ?_, ?_, get_court_position_mem _ _ _, fun r2 => rfl⟩
  · intro h1 h2
    simp [get_court_position, h1, h2]
  · intro h1 h2
    have h3 : ¬ p.x < net.x := not_lt.mpr h2
    simp [get_court_position, h1, h3]
  · intro h1 h2
    have h3 : ¬ net.y < p.y := not_lt.mpr h1
    simp [get_court_position, h3, h2]
  · intro h1 h2
    have h3 : ¬ net.y < p.y := not_lt.mpr h1
    have h4 : ¬ p.x < net.x := not_lt.mpr h2
    simp [get_court_position, h3, h4]

/-- C3 witness at a concrete near-deuce position. -/
theorem get_court_position_spec_witness :
    get_court_position (some ⟨2, 3⟩) (some ⟨1, 5⟩) 0 = "near_deuce" :=
  (get_court_position_spec ⟨2, 3⟩ ⟨1, 5⟩ 0).1 (by norm_num) (by norm_num)

/-- C4 counterexample: on the int box (10,20,15,5) the claim's rule
(corners exactly when c ≥ a and d ≥ b) converts, because 5 < 20, but the
source keeps the box unchanged since its test is only that the third entry
is an int exceeding the first. -/
theorem bbox_normalization_counterexample :
    normalize_bbox [.int 10, .int 20, .int 15, .int 5] = some [10, 20, 15, 5] ∧
    claimed_normalize 10 20 15 5 = [10, 20, 25, 25] ∧
    some ([10, 20, 15, 5] : List ℚ) ≠ some ([10, 20, 25, 25] : List ℚ) := by
  refine ⟨by decide, by norm_num [claimed_normalize], by decide⟩

/-- C4 amended: a raw 4-tuple is kept as corners exactly when its third
entry is an int strictly greater than the first entry (the second and
fourth entries are never consulted); otherwise it is converted from
x/y/width/height form, and with positive width and height the converted
corners satisfy x1 < x2 and y1 < y2. -/
theorem bbox_normalization_amended (a b c d : PyNum) :
    (c.isInt = true → a.val < c.val →
       normalize_bbox [a, b, c, d] = some [a.val, b.val, c.val, d.val]) ∧
    (c.isInt = false ∨ c.val ≤ a.val →
       normalize_bbox [a, b, c, d] = some [a.val, b.val, a.val + c.val, b.val + d.val]) ∧
    (c.isInt = false ∨ c.val ≤ a.val → 0 < c.val → 0 < d.val →
       ∃ x1 y1 x2 y2, normalize_bbox [a, b, c, d] = some [x1, y1, x2, y2] ∧
         x1 < x2 ∧ y1 < y2) := by
  have hconv : c.isInt = false ∨ c.val ≤ a.val →
      normalize_bbox [a, b, c, d] = some [a.val, b.val, a.val + c.val, b.val + d.val] := by
    intro h
    have hno : ¬ (c.isInt = true ∧ a.val < c.val) := by
      rcases h with h | h
      · simp [h]
      · exact fun hh => absurd hh.2 (not_lt.mpr h)
    simp [normalize_bbox, hno]
  refine ⟨?_, hconv, ?_⟩
  · intro h1 h2
    simp [normalize_bbox, h1, h2]
  · intro h hc hd2
    exact ⟨a.val, b.val, a.val + c.val, b.val + d.val, hconv h, by linarith, by linarith⟩

/-- C4 amended witness: the spec's own example box goes through the
width/height branch. -/
theorem bbox_normalization_amended_witness :
    normalize_bbox [.int 100, .int 100, .int 50, .int 80] = some [100, 100, 150, 180] := by
  have h := (bbox_normalization_amended (.int 100) (.int 100) (.int 50) (.int 80)).2.1
    (Or.inr (by norm_num [PyNum.val]))
  norm_num [PyNum.val] at h
  exact h

/-- C5 counterexample: a same-half start/end pair makes
`get_shot_direction` raise (an `Exception`, not a warning log), and in its
only caller — the Gemini analyzer step, whose `try` catches only JSON
decoding errors — the exception propagates, so the rally's labelling step
fails instead of continuing with best-effort output. -/
theorem same_side_direction_counterexample :
    get_shot_direction "right" "forehand" "near_deuce" "near_ad" =
      Except.error ShotDirError.sameSide ∧
    analyze_shot_sequence_nonlast (some ⟨0, 0⟩) (some ⟨-1, 1⟩) (some ⟨1, 2⟩) 0 0
      "right" false none = Except.error ShotDirError.sameSide := by
  refine ⟨by decide, by decide⟩

/-- C5 amended: a same-half pair makes `get_shot_direction` raise; the
Gemini analyzer propagates any such error uncaught (aborting the rally),
and only the CNN sequencer isolates a per-moment exception by skipping that
moment's event. -/
theorem same_side_direction_amended :
    (∀ handedness side start stop,
       ((strIn "near" start && strIn "near" stop) ||
        (strIn "far" start && strIn "far" stop)) = true →
       get_shot_direction handedness side start stop = Except.error ShotDirError.sameSide) ∧
    (∀ net p np (r1 r2 : Fin 4) handedness (ir : Bool) llm e,
       get_shot_direction handedness
         (match llm with | some q => q.1 | none => "forehand")
         (get_court_position net p r1) (get_court_position net np r2) = Except.error e →
       analyze_shot_sequence_nonlast net p np r1 r2 handedness ir llm = Except.error e) ∧
    (∀ categories net n o i m, o.fails i = true →
       cnn_process_moment categories net n o i m = none) := by
  refine ⟨?_, ?_, ?_⟩
  · intro handedness side start stop h
    simp [get_shot_direction, h]
  · intro net p np r1 r2 handedness ir llm e h
    simp only [analyze_shot_sequence_nonlast]
    rw [h]
  · intro categories net n o i m h
    cases hf : (match m.frameNumber with | some k => some k | none => m.frame) with
    | none => simp [cnn_process_moment, hf]
    | some fn => simp [cnn_process_moment, hf, h]

/-- C5 amended witness: a concrete same-half pair errors, and a concrete
failing moment is skipped by the CNN loop. -/
theorem same_side_direction_amended_witness :
    get_shot_direction "left" "backhand" "far_ad" "far_deuce" =
      Except.error ShotDirError.sameSide ∧
    cnn_process_moment [] none 2 demo_oracle_fail 0 demo_moment5 = none :=
  ⟨same_side_direction_amended.1 "left" "backhand" "far_ad" "far_deuce" (by decide),
   same_side_direction_amended.2.2 [] none 2 demo_oracle_fail 0 demo_moment5 (by decide)⟩

/-- C6 counterexample: on a moment with no playerId whose only bounding box
lacks a category id — player-matcher inputs (boxes and a position) being
present — the identity resolution returns the uniform-random draw directly:
the output tracks the random value, so no deterministic Player Matcher step
is ever consulted, contradicting the claimed four-step chain. -/
theorem player_fallback_counterexample :
    get_player_from_hitting_moment demo_matcher_moment 0 = "p1" ∧
    get_player_from_hitting_moment demo_matcher_moment 2 = "p3" ∧
    ("p1" : String) ≠ "p3" := by
  refine ⟨by decide, by decide, by decide⟩

/-- C6 amended: the fallback chain has three steps: an explicit playerId
wins; else with a non-empty boundingBoxes list the largest-area box (first
on ties) supplies its category id when it has one; in every other case —
including a largest box without a category id — the uniform-random id in
1..4 is returned.  No Player Matcher step exists. -/
theorem player_fallback_amended (m : HittingMoment) (r : Fin 4) :
    (∀ pid, m.playerId = some pid →
       get_player_from_hitting_moment m r = "p" ++ toString pid) ∧
    (m.playerId = none → ∀ boxes, m.boundingBoxes = some boxes → boxes ≠ [] →
       ∃ largest, pyMax bbox_area_key boxes = some largest ∧ largest ∈ boxes ∧
         (∀ b ∈ boxes, bbox_area_key b ≤ bbox_area_key largest) ∧
         (∀ cid, largest.category_id = some cid →
            get_player_from_hitting_moment m r = "p" ++ toString cid) ∧
         (largest.category_id = none →
            get_player_from_hitting_moment m r = "p" ++ toString ((r : Nat) + 1))) ∧
    (m.playerId = none → m.boundingBoxes = none ∨ m.boundingBoxes = some [] →
       get_player_from_hitting_moment m r = "p" ++ toString ((r : Nat) + 1)) := by
  refine ⟨?_, ?_, ?_⟩
  · intro pid h
    simp [get_player_from_hitting_moment, h]
  · intro hnone boxes hb hne
    match boxes, hne with
    | b :: bs, _ =>
      have hmax : pyMax bbox_area_key (b :: bs) =
          some (bs.foldl (fun best y => if bbox_area_key best < bbox_area_key y then y else best) b) :=
        rfl
      obtain ⟨hmem, hall⟩ := pyMax_spec bbox_area_key (b :: bs) _ hmax
      refine ⟨_, hmax, hmem, hall, ?_, ?_⟩
      · intro cid hcid
        simp [get_player_from_hitting_moment, hnone, hb, hmax, hcid]
      · intro hcid
        simp [get_player_from_hitting_moment, hnone, hb, hmax, hcid]
  · intro h1 h2
    rcases h2 with h | h <;> simp [get_player_from_hitting_moment, h1, h]

/-- C6 amended witness: explicit playerId wins and the empty case falls to
the random draw. -/
theorem player_fallback_amended_witness :
    get_player_from_hitting_moment demo_pid_moment 0 = "p" ++ toString (7 : Int) ∧
    get_player_from_hitting_moment demo_moment_noframe 2 = "p" ++ toString (1 : Int) :=
  ⟨(player_fallback_amended demo_pid_moment 0).1 7 rfl,
   (player_fallback_amended demo_moment_noframe 2).1 1 rfl⟩

lemma sqDist_nonneg (c p : ℚ × ℚ) : 0 ≤ sqDist c p := by
  unfold sqDist
  positivity

/-- C7: the player matcher returns (-1,-1) on an empty box list; otherwise
the primary index is valid and its center minimizes the Euclidean distance
to the position, with strictly larger distances before it (first index wins
ties); the partner index is -1 when exactly one box exists, and otherwise
is a valid index different from the primary whose center x-coordinate is
closest to the primary's center x. -/
theorem find_hitting_players_spec (boxes : List Box) (pos : ℚ × ℚ) :
    (boxes = [] → find_hitting_players boxes pos = (-1, -1)) ∧
    (boxes ≠ [] →
      ∃ pi : Nat, ∃ hpi : pi < boxes.length,
        (find_hitting_players boxes pos).1 = (pi : Int) ∧
        (∀ j (hj : j < boxes.length),
          Real.sqrt ((sqDist (center (boxes.get ⟨pi, hpi⟩)) pos : ℚ) : ℝ) ≤
            Real.sqrt ((sqDist (center (boxes.get ⟨j, hj⟩)) pos : ℚ) : ℝ)) ∧
        (∀ j (hj : j < pi),
          Real.sqrt ((sqDist (center (boxes.get ⟨pi, hpi⟩)) pos : ℚ) : ℝ) <
            Real.sqrt ((sqDist (center (boxes.get ⟨j, Nat.lt_trans hj hpi⟩)) pos : ℚ) : ℝ)) ∧
        (boxes.length = 1 → (find_hitting_players boxes pos).2 = -1) ∧
        (2 ≤ boxes.length →
          ∃ qi : Nat, ∃ hqi : qi < boxes.length,
            (find_hitting_players boxes pos).2 = (qi : Int) ∧ qi ≠ pi ∧
            ∀ j (hj : j < boxes.length), j ≠ pi →
              |(center (boxes.get ⟨qi, hqi⟩)).1 - (center (boxes.get ⟨pi, hpi⟩)).1| ≤
                |(center (boxes.get ⟨j, hj⟩)).1 - (center (boxes.get ⟨pi, hpi⟩)).1|)) := by
  constructor
  · rintro rfl
    rfl
  · intro hne
    match boxes, hne with
    | b :: bs, _ =>
      obtain ⟨pi, pd, heq, hpi, hpd, hmin, hfirst⟩ :=
        loopMin_start (((b :: bs).map center).map (fun c => sqDist c pos)) (by simp)
      have hpiL : pi < (b :: bs).length := by simpa using hpi
      have hpiC : pi < ((b :: bs).map center).length := by simpa using hpi
      have hdget : ∀ (k : Nat) (hk : k < (b :: bs).length),
          (((b :: bs).map center).map (fun c => sqDist c pos)).get ⟨k, by simpa using hk⟩ =
            sqDist (center ((b :: bs).get ⟨k, hk⟩)) pos := by
        intro k hk
        simp only [List.get_eq_getElem, List.getElem_map]
      have hpx : (((b :: bs).map center).get? pi).getD (0, 0) =
          center ((b :: bs).get ⟨pi, hpiL⟩) := by
        rw [List.get?_eq_get hpiC]
        simp only [Option.getD_some, List.get_eq_getElem, List.getElem_map]
      have hxget : ∀ (kk : Nat) (hkk : kk < (b :: bs).length),
          (((b :: bs).map center).map
            (fun c => |c.1 - ((((b :: bs).map center).get? pi).getD (0, 0)).1|)).get
              ⟨kk, by simpa using hkk⟩ =
            |(center ((b :: bs).get ⟨kk, hkk⟩)).1 - (center ((b :: bs).get ⟨pi, hpiL⟩)).1| := by
        intro kk hkk
        simp only [List.get_eq_getElem, List.getElem_map, hpx]
      have hpd2 : pd = sqDist (center ((b :: bs).get ⟨pi, hpiL⟩)) pos := by
        rw [hpd]
        exact hdget pi hpiL
      have hminq : ∀ j (hj : j < (b :: bs).length),
          pd ≤ sqDist (center ((b :: bs).get ⟨j, hj⟩)) pos := by
        intro j hj
        calc pd ≤ _ := hmin j (by simpa using hj)
          _ = _ := hdget j hj
      have hfirstq : ∀ j (hj : j < pi),
          pd < sqDist (center ((b :: bs).get ⟨j, Nat.lt_trans hj hpiL⟩)) pos := by
        intro j hj
        calc pd < _ := hfirst j hj
          _ = _ := hdget j (Nat.lt_trans hj hpiL)
      have hminR : ∀ j (hj : j < (b :: bs).length),
          Real.sqrt ((sqDist (center ((b :: bs).get ⟨pi, hpiL⟩)) pos : ℚ) : ℝ) ≤
            Real.sqrt ((sqDist (center ((b :: bs).get ⟨j, hj⟩)) pos : ℚ) : ℝ) := by
        intro j hj
        have hq : sqDist (center ((b :: bs).get ⟨pi, hpiL⟩)) pos ≤
            sqDist (center ((b :: bs).get ⟨j, hj⟩)) pos := hpd2 ▸ hminq j hj
        exact Real.sqrt_le_sqrt (by exact_mod_cast hq)
      have hfirstR : ∀ j (hj : j < pi),
          Real.sqrt ((sqDist (center ((b :: bs).get ⟨pi, hpiL⟩)) pos : ℚ) : ℝ) <
            Real.sqrt ((sqDist (center ((b :: bs).get ⟨j, Nat.lt_trans hj hpiL⟩)) pos : ℚ) : ℝ) := by
        intro j hj
        have hq : sqDist (center ((b :: bs).get ⟨pi, hpiL⟩)) pos <
            sqDist (center ((b :: bs).get ⟨j, Nat.lt_trans hj hpiL⟩)) pos := hpd2 ▸ hfirstq j hj
        refine Real.sqrt_lt_sqrt ?_ (by exact_mod_cast hq)
        exact_mod_cast sqDist_nonneg _ _
      have h0 : find_hitting_players (b :: bs) pos =
          match loopMin (((b :: bs).map center).map (fun c => sqDist c pos)) 0 none with
          | none => (-1, -1)
          | some (hp2, _) =>
            match loopMinSkip (((b :: bs).map center).map
                (fun c => |c.1 - ((((b :: bs).map center).get? hp2).getD (0, 0)).1|)) 0 hp2 none with
            | none => ((hp2 : Int), -1)
            | some (qi2, _) => ((hp2 : Int), (qi2 : Int)) := rfl
      have h1 : find_hitting_players (b :: bs) pos =
          match loopMinSkip (((b :: bs).map center).map
              (fun c => |c.1 - ((((b :: bs).map center).get? pi).getD (0, 0)).1|)) 0 pi none with
          | none => ((pi : Int), -1)
          | some (qi2, _) => ((pi : Int), (qi2 : Int)) := by
        rw [h0, heq]
      rcases loopMinSkip_start (((b :: bs).map center).map
          (fun c => |c.1 - ((((b :: bs).map center).get? pi).getD (0, 0)).1|)) 0 pi with
        ⟨hnone, hallskip⟩ | ⟨qi, qd, hs_eq, hs_min, k, hk, hqi_eq, hqi_ne, hqd⟩
      · have hres : find_hitting_players (b :: bs) pos = ((pi : Int), -1) := by
          rw [h1, hnone]
        refine ⟨pi, hpiL, by rw [hres], hminR, hfirstR, fun _ => by rw [hres], ?_⟩
        intro h2
        exfalso
        have e0 := hallskip 0 (by simpa using (by omega : 0 < (b :: bs).length))
        have e1 := hallskip 1 (by simpa using (by omega : 1 < (b :: bs).length))
        omega
      · have hres : find_hitting_players (b :: bs) pos = ((pi : Int), (qi : Int)) := by
          rw [h1, hs_eq]
        have hqik : qi = k := by omega
        subst hqik
        have hkL : qi < (b :: bs).length := by simpa using hk
        refine ⟨pi, hpiL, by rw [hres], hminR, hfirstR, ?_, ?_⟩
        · intro hlen1
          exfalso
          omega
        · intro h2
          refine ⟨qi, hkL, by rw [hres], by omega, ?_⟩
          intro j hj hjne
          have hqd2 : qd =
              |(center ((b :: bs).get ⟨qi, hkL⟩)).1 - (center ((b :: bs).get ⟨pi, hpiL⟩)).1| := by
            rw [hqd]
            exact hxget qi hkL
          calc |(center ((b :: bs).get ⟨qi, hkL⟩)).1 - (center ((b :: bs).get ⟨pi, hpiL⟩)).1|
              = qd := hqd2.symm
            _ ≤ _ := hs_min j (by simpa using hj) (by omega)
            _ = _ := hxget j hj

/-- C7 witness at the empty box list. -/
theorem find_hitting_players_spec_witness :
    find_hitting_players [] (0, 0) = (-1, -1) :=
  (find_hitting_players_spec [] (0, 0)).1 rfl

/-- C8 counterexample: the first pass tries only five variants — the
frame-prefixed 6-digit key is missing — so with keys 007 and frame_000007
for frame 7 the source falls through to the numeric scan and picks 007,
while the claimed six-variant resolution picks frame_000007. -/
theorem frame_key_resolution_counterexample :
    resolve_frame_key ["007", "frame_000007"] 7 = some "007" ∧
    resolve_frame_key_claimed ["007", "frame_000007"] 7 = some "frame_000007" ∧
    ("007" : String) ≠ "frame_000007" := by
  refine ⟨by decide, by decide, by decide⟩

/-- C8 amended: resolution tries, in priority order, exactly the plain,
4-digit, 6-digit, frame-prefixed plain and frame-prefixed 4-digit variants;
when none is a key it falls back to the first key whose numeric suffix
(after stripping up to the last underscore) parses to the frame number; it
returns a key of the map when it succeeds, and fails exactly when no
variant is present and no key matches numerically. -/
theorem frame_key_resolution_amended (keys : List String) (n : Nat) :
    (∀ k, (possible_keys n).find? (fun c => keys.contains c) = some k →
       resolve_frame_key keys n = some k) ∧
    ((possible_keys n).find? (fun c => keys.contains c) = none →
       resolve_frame_key keys n =
         keys.find? (fun key => parseNat (clean_key key) == some n)) ∧
    (∀ k, resolve_frame_key keys n = some k → k ∈ keys) ∧
    (resolve_frame_key keys n = none ↔
       (∀ pk ∈ possible_keys n, pk ∉ keys) ∧
       ∀ k ∈ keys, ¬ parseNat (clean_key k) = some n) := by
  refine ⟨?_, ?_, ?_, ?_⟩
  · intro k h
    unfold resolve_frame_key
    rw [h]
  · intro h
    unfold resolve_frame_key
    rw [h]
  · intro k h
    unfold resolve_frame_key at h
    cases hf : (possible_keys n).find? (fun c => keys.contains c) with
    | some k2 =>
      rw [hf] at h
      cases h
      have := List.find?_some hf
      exact List.mem_of_elem_eq_true this
    | none =>
      rw [hf] at h
      exact List.mem_of_find?_eq_some h
  · unfold resolve_frame_key
    cases hf : (possible_keys n).find? (fun c => keys.contains c) with
    | some k2 =>
      constructor
      · intro h
        cases h
      · rintro ⟨h1, h2⟩
        have hmem := List.mem_of_find?_eq_some hf
        have hcontains := List.find?_some hf
        exact absurd (List.mem_of_elem_eq_true hcontains) (h1 k2 hmem)
    | none =>
      constructor
      · intro h
        refine ⟨?_, ?_⟩
        · intro pk hpk hmem
          have := List.find?_eq_none.mp hf pk hpk
          exact this (List.elem_eq_true_of_mem hmem)
        · intro k hk
          have := List.find?_eq_none.mp h k hk
          simpa using this
      · rintro ⟨h1, h2⟩
        refine List.find?_eq_none.mpr ?_
        intro k hk
        simpa using h2 k hk

/-- C8 amended witness: the 4-digit zero-padded variant is found directly. -/
theorem frame_key_resolution_amended_witness :
    resolve_frame_key ["0007"] 7 = some "0007" :=
  (frame_key_resolution_amended ["0007"] 7).1 "0007" (by decide)

/-- C9: the handedness lookup yields "unknown" on an empty roster and on an
unmatched id, and for every opposite-half quadrant pair the direction
lookup under handedness "unknown" raises a KeyError (the table has only
left and right entries), for any side value. -/
theorem unknown_handedness_keyerror :
    (∀ pid, get_player_handedness pid [] = some "unknown") ∧
    (∀ pid k categories, parse_player_num pid = some k →
       (∀ c ∈ categories, c.id ≠ k) →
       get_player_handedness pid categories = some "unknown") ∧
    (∀ side start stop,
       (start ∈ ["near_deuce", "near_ad"] ∧ stop ∈ ["far_deuce", "far_ad"]) ∨
       (start ∈ ["far_deuce", "far_ad"] ∧ stop ∈ ["near_deuce", "near_ad"]) →
       get_shot_direction "unknown" side start stop = Except.error ShotDirError.keyError) := by
  refine ⟨?_, ?_, ?_⟩
  · intro pid
    simp [get_player_handedness]
  · intro pid k categories hparse hnone
    by_cases hc : categories.isEmpty
    · simp [get_player_handedness, hc]
    · have hfind : categories.find? (fun c => c.id == k) = none := by
        refine List.find?_eq_none.mpr ?_
        intro c hcmem
        simpa using hnone c hcmem
      simp [get_player_handedness, hc, hparse, hfind]
  · intro side start stop h
    rcases h with ⟨hs, he⟩ | ⟨hs, he⟩ <;>
      simp only [List.mem_cons, List.not_mem_nil, or_false] at hs he <;>
      rcases hs with rfl | rfl <;> rcases he with rfl | rfl <;> rfl

/-- C9 witness at "unknown" handedness and a concrete opposite-half pair. -/
theorem unknown_handedness_keyerror_witness :
    get_player_handedness "p3" [] = some "unknown" ∧
    get_shot_direction "unknown" "forehand" "near_deuce" "far_ad" =
      Except.error ShotDirError.keyError :=
  ⟨unknown_handedness_keyerror.1 "p3",
   unknown_handedness_keyerror.2.2 "forehand" "near_deuce" "far_ad"
     (Or.inl ⟨by decide, by decide⟩)⟩

/-- C10: the direction table is mirror-symmetric in handedness — for sides
forehand/backhand and every opposite-half quadrant pair, the left-handed
entry equals the right-handed entry at the swapped side. -/
theorem direction_table_mirror (side start stop : String)
    (hside : side ∈ ["forehand", "backhand"])
    (h : (start ∈ ["near_deuce", "near_ad"] ∧ stop ∈ ["far_deuce", "far_ad"]) ∨
         (start ∈ ["far_deuce", "far_ad"] ∧ stop ∈ ["near_deuce", "near_ad"])) :
    get_shot_direction "left" side start stop =
      get_shot_direction "right" (opposite_side side) start stop := by
  simp only [List.mem_cons, List.not_mem_nil, or_false] at hside
  rcases h with ⟨hs, he⟩ | ⟨hs, he⟩ <;>
    simp only [List.mem_cons, List.not_mem_nil, or_false] at hs he <;>
    rcases hside with rfl | rfl <;>
    rcases hs with rfl | rfl <;> rcases he with rfl | rfl <;> decide

/-- C10 witness at a concrete mirrored pair. -/
theorem direction_table_mirror_witness :
    get_shot_direction "left" "forehand" "near_deuce" "far_ad" =
      get_shot_direction "right" (opposite_side "forehand") "near_deuce" "far_ad" :=
  direction_table_mirror "forehand" "near_deuce" "far_ad" (by decide)
    (Or.inl ⟨by decide, by decide⟩)

end Tennis
